import Mathlib

/-!
# OttosPrintToPDF: the CUPS backend `cups-pdf.c`

A shallow embedding of `src/Sources/cups-pdf.c` (functions `copy_file` and
`main`) over an explicit model of the process environment: the user
directory, the file system, the three standard streams and a log of the
library calls the program makes.

Conventions of the embedding.

* A C string is a list of `Char` (one `Char` per C `char`, no terminating
  NUL); a file holds a list of bytes.
* `argc` is the length of `argv`; `argv[argc]` is the NULL pointer, so
  `argv[6]` is `argv.get? 6`, which is `none` exactly when `argc ≤ 6`.
* Files and directories are kept by node, not by the text of a path:
  `World.node` gives, for a path, the node it names, as one canonical
  absolute path per node. Paths that differ only in spelling (`.`, `..`,
  repeated slashes) and paths that reach one file through symbolic or hard
  links have the same node. `World.via` gives the directories that the
  resolution of a path passes through, the one that holds the named node
  among them; a path is usable only when all of them exist.
* Every library call appends one `Call` to `World.trace`, also when the call
  fails; the trace is the record of what the program attempted. The calls
  `mkdir`, `fopen`, `chown` and `chmod` that succeed are appended to
  `World.succeeded` as well.
* A call fails for the reasons the file system shows (no such file, a
  directory on the way is missing, the path names a directory, the directory
  exists already) and whenever the operating system rejects it.
  That decision, `World.refuse`, is an input of the model; it may depend on
  the operation, on the path and on the files as they are at the time of the
  call, their owners and modes in particular.
* The most bytes a file may hold (device full, quota) is
  `World.fsize_limit`.
* `atoi(argv[1])`, `num_options` and `options` of `main` are computed and
  never used; they have no effect and are left out.
-/

namespace CupsPdf

/-- A C string: the characters before the terminating NUL. -/
abbrev CString := List Char

/-- One byte of file content. -/
abbrev Byte := Fin 256

/-- The record `struct passwd` of `<pwd.h>`, with the three fields `main`
reads; `pw_uid` and `pw_gid` are values of the 32-bit types `uid_t` and
`gid_t`. -/
structure passwd where
  pw_uid : Nat
  pw_gid : Nat
  pw_dir : CString
deriving DecidableEq, Repr

/-- A regular file: its bytes, its owner and group, its permission bits. -/
structure File where
  content : List Byte
  uid : Nat
  gid : Nat
  mode : Nat
deriving DecidableEq, Repr

/-- The operations the operating system may reject on a path. -/
inductive Op where
  | openR
  | openW
  | mkdir
  | chown
  | chmod
deriving DecidableEq, Repr

/-- One library call made by the program, with its arguments. -/
inductive Call where
  | puts (s : CString)
  | fputs (s : CString)
  | getpwnam (name : CString)
  | mkdir (path : CString) (mode : Nat)
  | fopen (path : Option CString) (mode : CString)
  | fread (path : CString) (size : Nat)
  | fwrite (path : CString) (data : List Byte)
  | fclose (path : CString)
  | chown (path : CString) (uid : Nat) (gid : Nat)
  | chmod (path : CString) (mode : Nat)
deriving DecidableEq, Repr

/-- The environment of one process: user directory, file system, streams,
and the logs of library calls. -/
@[ext]
structure World where
  /-- the user directory consulted by `getpwnam` -/
  users : CString → Option passwd
  /-- the node that a path names: one canonical absolute path for each file
  or directory, whatever the spelling or link it is reached by -/
  node : CString → CString
  /-- the nodes of the directories that the resolution of a path passes
  through, the directory that holds the named node among them -/
  via : CString → List CString
  /-- whether the operating system rejects an operation on a path, given the
  files as they are at the time of the call -/
  refuse : Op → CString → (CString → Option File) → Bool
  /-- the most bytes a file may hold -/
  fsize_limit : Nat
  /-- the file-mode creation mask of the process -/
  umask : Nat
  /-- effective user id of the process, the owner of the files it creates -/
  euid : Nat
  /-- the group that a file created by the process gets (its effective group
  id, or the group of the directory, as the system has it) -/
  newfile_gid : Nat
  /-- regular files by canonical path -/
  files : CString → Option File
  /-- directories by canonical path -/
  dirs : CString → Bool
  /-- bytes waiting on standard input -/
  stdin : List Byte
  /-- characters written to standard output -/
  stdout : CString
  /-- characters written to standard error -/
  stderr : CString
  /-- library calls made so far, oldest first -/
  trace : List Call
  /-- the calls of `mkdir`, `fopen`, `chown` and `chmod` that succeeded so
  far, oldest first -/
  succeeded : List Call

/-- Modelled from the spec: `CUPS_BACKEND_OK` of `<cups/backend.h>`, the
"OK" exit status; the header is not part of the repository. -/
def CUPS_BACKEND_OK : Int := 0

/-- Modelled from the spec: `CUPS_BACKEND_FAILED` of `<cups/backend.h>`, the
"FAILED" exit status; the header is not part of the repository. -/
def CUPS_BACKEND_FAILED : Int := 1

/-- The value `(uid_t)-1`, also `(gid_t)-1`: as an argument of `chown` it
means that the id is not to be changed. -/
def NO_ID : Nat := 4294967295

/-- The map `m` with the value at `k` replaced by `v`. -/
def update {β : Type} (m : CString → β) (k : CString) (v : β) : CString → β :=
  fun p => if p = k then v else m p

/-- Permission bits `mode & ~mask` (nine permission bits and the three
special bits). -/
def applyUmask (mode mask : Nat) : Nat :=
  mode &&& (0o7777 - mask % 0o10000)

/-- Whether every directory on the way of `path` exists. -/
def reachable (path : CString) (w : World) : Bool :=
  (w.via path).all w.dirs

/-- The id that `chown` leaves when asked for `new` on a file with `old`. -/
def keep_id (new old : Nat) : Nat :=
  if new = NO_ID then old else new

/-- Library call `puts(s)`: `s` and a newline go to standard output. -/
def puts (s : CString) (w : World) : World :=
  { w with stdout := w.stdout ++ s ++ ['\n'], trace := w.trace ++ [Call.puts s] }

/-- Library call `fputs(s, stderr)`. -/
def fputs_stderr (s : CString) (w : World) : World :=
  { w with stderr := w.stderr ++ s, trace := w.trace ++ [Call.fputs s] }

/-- Library call `getpwnam(name)`: the record of the user, or NULL. -/
def getpwnam (name : CString) (w : World) : Option passwd × World :=
  (w.users name, { w with trace := w.trace ++ [Call.getpwnam name] })

/-- Library call `mkdir(path, mode)`: fails when the system rejects it, when
the path names an existing directory or file, or when a directory on the way
is missing; else creates the directory. Returns success. -/
def mkdir (path : CString) (mode : Nat) (w : World) : Bool × World :=
  let w1 := { w with trace := w.trace ++ [Call.mkdir path mode] }
  let n := w.node path
  if w.refuse Op.mkdir path w.files || w.dirs n || (w.files n).isSome || !(reachable path w) then
    (false, w1)
  else
    (true, { w1 with
      dirs := update w.dirs n true
      succeeded := w.succeeded ++ [Call.mkdir path mode] })

/-- Library call `fopen(path, "rb")`: the stream, named by the path it was
opened with, or NULL. A NULL `path` fails (`EFAULT`), as does a path that the
system rejects, that has a directory missing on its way or that names
nothing; a file opens, and so does a directory (its reads then give
nothing). -/
def fopen_rb (path : Option CString) (w : World) : Option CString × World :=
  let w1 := { w with trace := w.trace ++ [Call.fopen path "rb".toList] }
  match path with
  | none => (none, w1)
  | some p =>
    if w.refuse Op.openR p w.files then (none, w1)
    else if reachable p w && ((w.files (w.node p)).isSome || w.dirs (w.node p)) then
      (some p, { w1 with succeeded := w.succeeded ++ [Call.fopen path "rb".toList] })
    else (none, w1)

/-- Library call `fopen(path, "wb")`: fails when the system rejects it, when
the path names a directory, or when a directory on the way is missing; else
truncates an existing file or creates a missing one (owned by the process,
mode `0666 & ~umask`). Returns success. -/
def fopen_wb (path : CString) (w : World) : Bool × World :=
  let w1 := { w with trace := w.trace ++ [Call.fopen (some path) "wb".toList] }
  let n := w.node path
  if w.refuse Op.openW path w.files || w.dirs n || !(reachable path w) then (false, w1)
  else
    let f : File :=
      match w.files n with
      | some f => { f with content := [] }
      | none => { content := [], uid := w.euid, gid := w.newfile_gid, mode := applyUmask 0o666 w.umask }
    (true, { w1 with
      files := update w.files n (some f)
      succeeded := w.succeeded ++ [Call.fopen (some path) "wb".toList] })

/-- Library call `fread(buf, 1, size, in)` on the stream opened with `path`,
at offset `pos`: the next at most `size` bytes of the file as it is now;
nothing when the stream is a directory. -/
def fread (path : CString) (pos size : Nat) (w : World) : List Byte × World :=
  let w1 := { w with trace := w.trace ++ [Call.fread path size] }
  match w.files (w.node path) with
  | none => ([], w1)
  | some f => ((f.content.drop pos).take size, w1)

/-- Library call `fwrite(buf, 1, n, out)` on the stream opened with `path`:
the bytes are appended, as far as the size limit allows. -/
def fwrite (path : CString) (buf : List Byte) (w : World) : World :=
  let w1 := { w with trace := w.trace ++ [Call.fwrite path buf] }
  match w.files (w.node path) with
  | none => w1
  | some f =>
    let f1 : File := { f with content := f.content ++ buf.take (w.fsize_limit - f.content.length) }
    { w1 with files := update w.files (w.node path) (some f1) }

/-- Library call `fclose(stream)`. -/
def fclose (path : CString) (w : World) : World :=
  { w with trace := w.trace ++ [Call.fclose path] }

/-- Library call `chown(path, uid, gid)`: fails when the system rejects it,
when a directory on the way is missing or when the path names nothing; on a
file it sets owner and group, leaving an id that is given as `(uid_t)-1`.
Returns success. -/
def chown (path : CString) (uid gid : Nat) (w : World) : Bool × World :=
  let w1 := { w with trace := w.trace ++ [Call.chown path uid gid] }
  let n := w.node path
  if w.refuse Op.chown path w.files || !(reachable path w) then (false, w1)
  else
    match w.files n with
    | some f =>
      let f1 : File := { f with uid := keep_id uid f.uid, gid := keep_id gid f.gid }
      (true, { w1 with
        files := update w.files n (some f1)
        succeeded := w.succeeded ++ [Call.chown path uid gid] })
    | none =>
      if w.dirs n then (true, { w1 with succeeded := w.succeeded ++ [Call.chown path uid gid] })
      else (false, w1)

/-- Library call `chmod(path, mode)`: fails when the system rejects it, when
a directory on the way is missing or when the path names nothing; on a file
it sets the permission bits. Returns success. -/
def chmod (path : CString) (mode : Nat) (w : World) : Bool × World :=
  let w1 := { w with trace := w.trace ++ [Call.chmod path mode] }
  let n := w.node path
  if w.refuse Op.chmod path w.files || !(reachable path w) then (false, w1)
  else
    match w.files n with
    | some f =>
      let f1 : File := { f with mode := mode % 0o10000 }
      (true, { w1 with
        files := update w.files n (some f1)
        succeeded := w.succeeded ++ [Call.chmod path mode] })
    | none =>
      if w.dirs n then (true, { w1 with succeeded := w.succeeded ++ [Call.chmod path mode] })
      else (false, w1)

/-- Library call `snprintf(buf, size, ...)`: what `buf` holds afterwards, the
formatted text cut to `size - 1` characters. -/
def snprintf (size : Nat) (formatted : CString) : CString :=
  formatted.take (size - 1)

/-- The size of the file that `path` names, 0 when it names no file. -/
def fsize (path : CString) (w : World) : Nat :=
  match w.files (w.node path) with
  | none => 0
  | some f => f.content.length

/-- The loop of `copy_file`:
`while ((n = fread(buf, 1, sizeof(buf), in)) > 0) fwrite(buf, 1, n, out);`
with `sizeof(buf) = 4096`. `none` when the iteration bound `fuel` is used up
before `fread` returns 0. -/
def copy_loop : Nat → CString → Nat → CString → World → Option World
  | 0, _, _, _, _ => none
  | fuel + 1, src, pos, dst, w =>
    let r := fread src pos 4096 w
    if r.1.length > 0 then
      copy_loop fuel src (pos + r.1.length) dst (fwrite dst r.1 r.2)
    else some r.2

/-- Function `copy_file(src, dst)` of `cups-pdf.c`. The loop is run with as
many iterations as the input has bytes, plus one. -/
def copy_file (src : Option CString) (dst : CString) (w : World) : Option World :=
  match fopen_rb src w with
  | (none, w1) => some w1
  | (some inp, w1) =>
    match fopen_wb dst w1 with
    | (false, w2) => some (fclose inp w2)
    | (true, w2) =>
      (copy_loop (fsize inp w2 + 1) inp 0 dst w2).map
        (fun w3 => fclose dst (fclose inp w3))

/-- The line `main` prints in device-listing mode. -/
def device_line : CString :=
  "file cups-pdf:/ \"Otto's Print to PDF\" \"Otto's Print to PDF\" \"MFG:Otto;CMD:PDF;\"".toList

/-- The buffer `output_dir` of `main`:
`snprintf(output_dir, 1024, "%s/Documents", pwd->pw_dir)`. -/
def output_dir (pw_dir : CString) : CString :=
  snprintf 1024 (pw_dir ++ "/Documents".toList)

/-- The buffer `output_path` of `main`:
`snprintf(output_path, 2048, "%s/%s.pdf", output_dir, title)`. -/
def output_path (dir title : CString) : CString :=
  snprintf 2048 (dir ++ "/".toList ++ title ++ ".pdf".toList)

/-- Function `main(argc, argv)` of `cups-pdf.c`: the exit status and the
environment it leaves. -/
def main (argv : List CString) (w : World) : Option (Int × World) :=
  let argc := argv.length
  if argc = 1 then
    some (CUPS_BACKEND_OK, puts device_line w)
  else if argc < 6 ∨ argc > 7 then
    some (CUPS_BACKEND_FAILED, fputs_stderr "ERROR: Wrong number of arguments\n".toList w)
  else
    let user := argv.getD 2 []
    let title := argv.getD 3 []
    match getpwnam user w with
    | (none, w1) =>
      some (CUPS_BACKEND_FAILED, fputs_stderr "ERROR: Unable to get user info\n".toList w1)
    | (some pwd, w1) =>
      let dir := output_dir pwd.pw_dir
      let w2 := (mkdir dir 0o755 w1).2
      let path := output_path dir title
      (copy_file (argv.get? 6) path w2).map (fun w3 =>
        let w4 := (chown path pwd.pw_uid pwd.pw_gid w3).2
        let w5 := (chmod path 0o644 w4).2
        (CUPS_BACKEND_OK, w5))

/-- The calls that succeeded between the environment `w` and the later
environment `w'`. -/
def since (w w' : World) : List Call :=
  w'.succeeded.drop w.succeeded.length

/-! ## Closed forms used in the proofs -/

/-- Whether `fopen(src, "rb")` succeeds in `w`. -/
def input_opens (src : Option CString) (w : World) : Bool :=
  match src with
  | none => false
  | some s =>
    !(w.refuse Op.openR s w.files) && reachable s w
      && ((w.files (w.node s)).isSome || w.dirs (w.node s))

/-- Whether `fopen(dst, "wb")` succeeds in `w`. -/
def output_opens (dst : CString) (w : World) : Bool :=
  !(w.refuse Op.openW dst w.files) && !(w.dirs (w.node dst)) && reachable dst w

/-- The file that a successful `fopen(dst, "wb")` leaves: the old file
emptied, or a new empty file of the process. -/
def opened_file (dst : CString) (w : World) : File :=
  match w.files (w.node dst) with
  | some f => { f with content := [] }
  | none => { content := [], uid := w.euid, gid := w.newfile_gid, mode := applyUmask 0o666 w.umask }

/-- The bytes that the loop of `copy_file` writes once both streams are open:
nothing when input and output are one file or the input is a directory, else
the input as far as the size limit allows. -/
def copy_data (s dst : CString) (w : World) : List Byte :=
  if w.node s = w.node dst then []
  else
    match w.files (w.node s) with
    | none => []
    | some fs => fs.content.take w.fsize_limit

/-- Closed form of the files left by `copy_file src dst`, proved equal to
what `copy_file` computes in `copy_file_eq`. -/
def copy_files (src : Option CString) (dst : CString) (w : World) : CString → Option File :=
  match src with
  | none => w.files
  | some s =>
    if input_opens (some s) w && output_opens dst w then
      update w.files (w.node dst)
        (some { opened_file dst w with content := copy_data s dst w })
    else w.files

/-- Closed form of the successful calls of `copy_file src dst`. -/
def copy_succeeded (src : Option CString) (dst : CString) (w : World) : List Call :=
  (if input_opens src w then [Call.fopen src "rb".toList] else [])
    ++ (if input_opens src w && output_opens dst w then [Call.fopen (some dst) "wb".toList]
        else [])

/-- Whether `mkdir(path, mode)` succeeds in `w`. -/
def mkdir_ok (path : CString) (w : World) : Bool :=
  !(w.refuse Op.mkdir path w.files || w.dirs (w.node path)
    || (w.files (w.node path)).isSome || !(reachable path w))

/-- Closed form of the directories left by `mkdir(path, mode)`. -/
def mkdir_dirs (path : CString) (w : World) : CString → Bool :=
  if mkdir_ok path w then update w.dirs (w.node path) true else w.dirs

/-- Whether `chown(path, uid, gid)` succeeds in `w`. -/
def chown_ok (path : CString) (w : World) : Bool :=
  !(w.refuse Op.chown path w.files) && reachable path w
    && ((w.files (w.node path)).isSome || w.dirs (w.node path))

/-- Whether `chmod(path, mode)` succeeds in `w`. -/
def chmod_ok (path : CString) (w : World) : Bool :=
  !(w.refuse Op.chmod path w.files) && reachable path w
    && ((w.files (w.node path)).isSome || w.dirs (w.node path))

/-- Closed form of the files left by `chown(path, uid, gid)`. -/
def chown_files (path : CString) (uid gid : Nat) (w : World) : CString → Option File :=
  if chown_ok path w then
    match w.files (w.node path) with
    | some f =>
      update w.files (w.node path)
        (some { f with uid := keep_id uid f.uid, gid := keep_id gid f.gid })
    | none => w.files
  else w.files

/-- Closed form of the files left by `chmod(path, mode)`. -/
def chmod_files (path : CString) (mode : Nat) (w : World) : CString → Option File :=
  if chmod_ok path w then
    match w.files (w.node path) with
    | some f => update w.files (w.node path) (some { f with mode := mode % 0o10000 })
    | none => w.files
  else w.files

/-- The environment `w` with other files. -/
def with_files (files : CString → Option File) (w : World) : World :=
  { w with files := files }

/-- The environment `w` with other directories. -/
def with_dirs (dirs : CString → Bool) (w : World) : World :=
  { w with dirs := dirs }

/-- The environment in which `chown` runs in the job-processing part of
`main`, when the copy starts in `w`. -/
def after_copy (src : Option CString) (dst : CString) (w : World) : World :=
  with_files (copy_files src dst w) w

/-- The environment in which `chmod` runs in the job-processing part of
`main`, when the copy starts in `w`. -/
def after_chown (src : Option CString) (dst : CString) (uid gid : Nat) (w : World) : World :=
  with_files (chown_files dst uid gid (after_copy src dst w)) w

/-- Closed form of the files left by the job-processing part of `main`:
copy, then `chown`, then `chmod 0644`. -/
def job_files (src : Option CString) (dst : CString) (uid gid : Nat) (w : World) :
    CString → Option File :=
  chmod_files dst 0o644 (after_chown src dst uid gid w)

/-- Closed form of the successful calls of the job-processing part of `main`
after the `mkdir`. -/
def job_succeeded (src : Option CString) (dst : CString) (uid gid : Nat) (w : World) :
    List Call :=
  copy_succeeded src dst w
    ++ (if chown_ok dst (after_copy src dst w) then [Call.chown dst uid gid] else [])
    ++ (if chmod_ok dst (after_chown src dst uid gid w) then [Call.chmod dst 0o644] else [])

/-- The calls `copy_file src dst` may make after its first `fopen`. -/
def Call.inCopy (src : Option CString) (dst : CString) : Call → Bool
  | Call.fopen p m => decide (p = some dst) && decide (m = "wb".toList)
  | Call.fread p n => decide (src = some p) && decide (n = 4096)
  | Call.fwrite p _ => decide (p = dst)
  | Call.fclose p => decide (src = some p) || decide (p = dst)
  | _ => false

/-! ## Concrete environments and invocations -/

/-- The components of a path: the texts between its slashes. -/
def split_slash : CString → List CString
  | [] => [[]]
  | c :: cs =>
    if c = '/' then [] :: split_slash cs
    else
      match split_slash cs with
      | [] => [[c]]
      | x :: xs => (c :: x) :: xs

/-- One step of the canonical form: an empty component and `.` are dropped,
`..` removes the component before it. -/
def canon_step (stack : List CString) (comp : CString) : List CString :=
  if comp = [] ∨ comp = ['.'] then stack
  else if comp = ['.', '.'] then stack.dropLast
  else stack ++ [comp]

/-- The components joined, a slash before each. -/
def join_slash : List CString → CString
  | [] => []
  | c :: cs => '/' :: (c ++ join_slash cs)

/-- The absolute path with the given components, `/` when there is none. -/
def join_root (stack : List CString) : CString :=
  match join_slash stack with
  | [] => ['/']
  | q => q

/-- The node of an absolute path in a file system without links: its
canonical form. -/
def normalize (p : CString) : CString :=
  join_root ((split_slash p).foldl canon_step [])

/-- One step of the resolution of a path in a file system without links: the
components walked so far and the directories passed through. A component is
looked up in the directory reached so far, and `..` leaves it. -/
def via_step (st : List CString × List CString) (comp : CString) :
    List CString × List CString :=
  if comp = [] ∨ comp = ['.'] then st
  else if comp = ['.', '.'] then (st.1.dropLast, st.2 ++ [join_root st.1])
  else (st.1 ++ [comp], st.2 ++ [join_root st.1])

/-- The directories that the resolution of an absolute path passes through
in a file system without links. -/
def lexical_via (p : CString) : List CString :=
  ((split_slash p).foldl via_step ([], [])).2

/-- The record of `alice` in the user directory of `alice_world`. -/
def alice : passwd := { pw_uid := 501, pw_gid := 20, pw_dir := "/Users/alice".toList }

/-- The path `/Users/alice/Documents/Invoice.pdf`. -/
def invoice_path : CString := "/Users/alice/Documents/Invoice.pdf".toList

/-- An environment without links, with one user, `alice` (uid 501, gid 20,
home `/Users/alice`), the directories `/`, `/tmp`, `/Users` and
`/Users/alice`, one input file `/tmp/in.pdf` of four bytes, a process that
runs as root and to which the system refuses nothing, and four bytes waiting
on standard input. -/
def alice_world : World :=
  { users := fun n => if n = "alice".toList then some alice else none
    node := normalize
    via := lexical_via
    refuse := fun _ _ _ => false
    fsize_limit := 1000000
    umask := 0o022
    euid := 0
    newfile_gid := 0
    files := fun p =>
      if p = "/tmp/in.pdf".toList then
        some { content := [37, 80, 68, 70], uid := 0, gid := 0, mode := 0o600 }
      else none
    dirs := fun p =>
      decide (p = "/".toList) || decide (p = "/tmp".toList) || decide (p = "/Users".toList)
        || decide (p = "/Users/alice".toList)
    stdin := [37, 80, 68, 70]
    stdout := []
    stderr := []
    trace := []
    succeeded := [] }

/-- The six-argument invocation of the example scenario: no input file. -/
def argv_stdin : List CString :=
  ["cups-pdf".toList, "42".toList, "alice".toList, "Invoice".toList, "1".toList, []]

/-- The seven-argument invocation with the input file `/tmp/in.pdf`. -/
def argv_file : List CString := argv_stdin ++ ["/tmp/in.pdf".toList]

/-- The seven-argument invocation naming an input file that does not exist. -/
def argv_missing : List CString := argv_stdin ++ ["/tmp/missing.pdf".toList]

/-- The environment `alice_world` in which the directory
`/Users/alice/Documents` exists. -/
def documents_world : World :=
  { alice_world with
    dirs := update alice_world.dirs "/Users/alice/Documents".toList true }

/-- The environment `alice_world` in which the operating system refuses to
open `/Users/alice/Documents/Invoice.pdf` for writing. -/
def readonly_world : World :=
  { alice_world with
    refuse := fun op p _ => decide (op = Op.openW) && decide (normalize p = invoice_path) }

/-- The environment `alice_world` with a file size limit of two bytes. -/
def quota_world : World :=
  { alice_world with fsize_limit := 2 }

/-- What the system rejects for a process that runs as user 501, not as
root, on a file that exists: reading and writing follow the owner bits on
its own files and the bits for others on other files; `chown` and `chmod`
are for its own files only. -/
def user_refuse : Op → CString → (CString → Option File) → Bool :=
  fun op p files =>
    match files (normalize p) with
    | none => false
    | some f =>
      match op with
      | Op.openR => (if f.uid = 501 then f.mode &&& 0o400 else f.mode &&& 0o004) == 0
      | Op.openW => (if f.uid = 501 then f.mode &&& 0o200 else f.mode &&& 0o002) == 0
      | Op.mkdir => false
      | Op.chown => f.uid != 501
      | Op.chmod => f.uid != 501

/-- An environment in which the backend runs as `alice` herself (uid 501,
not root) and `Invoice.pdf` exists already: three bytes, owned by `alice`,
mode 0400 (read-only); the input file `/tmp/in.pdf` is readable by all. -/
def owner_world : World :=
  { documents_world with
    refuse := user_refuse
    euid := 501
    newfile_gid := 20
    files := fun p =>
      if p = "/tmp/in.pdf".toList then
        some { content := [37, 80, 68, 70], uid := 0, gid := 0, mode := 0o644 }
      else if p = invoice_path then
        some { content := [79, 76, 68], uid := 501, gid := 20, mode := 0o400 }
      else none }

/-- A job title of 2048 characters. -/
def long_title : CString := List.replicate 2048 'a'

/-- The seven-argument invocation with the title `long_title`. -/
def argv_long : List CString :=
  ["cups-pdf".toList, "42".toList, "alice".toList, long_title, "1".toList, [], "/tmp/in.pdf".toList]

theorem update_same {β : Type} (m : CString → β) (k : CString) (v : β) :
    update m k v k = v := by
  simp [update]

theorem update_ne {β : Type} (m : CString → β) (k : CString) (v : β) (p : CString)
    (h : p ≠ k) : update m k v p = m p := by
  simp [update, h]

theorem update_update {β : Type} (m : CString → β) (k : CString) (a b : β) :
    update (update m k a) k b = update m k b := by
  funext p
  by_cases h : p = k <;> simp [update, h]

theorem update_self {β : Type} (m : CString → β) (k : CString) (v : β) (h : m k = v) :
    update m k v = m := by
  funext p
  by_cases hp : p = k
  · subst hp; simp [update, h]
  · simp [update, hp]

/-- Copying a list in chunks of `k` into a room of `m` places keeps the first
`m` elements. -/
theorem take_chunk_append (d : List Byte) :
    ∀ m k : Nat,
      (d.take k).take m ++ (d.drop (d.take k).length).take (m - ((d.take k).take m).length)
        = d.take m := by
  induction d with
  | nil => intro m k; simp
  | cons x xs ih =>
    intro m k
    cases k with
    | zero => simp
    | succ k =>
      cases m with
      | zero => simp
      | succ m =>
        have := ih m k
        simpa using this

theorem fread_some (p : CString) (pos n : Nat) (w : World) (f : File)
    (h : w.files (w.node p) = some f) :
    fread p pos n w
      = ((f.content.drop pos).take n, { w with trace := w.trace ++ [Call.fread p n] }) := by
  simp [fread, h]

theorem fread_none (p : CString) (pos n : Nat) (w : World)
    (h : w.files (w.node p) = none) :
    fread p pos n w = ([], { w with trace := w.trace ++ [Call.fread p n] }) := by
  simp [fread, h]

theorem fwrite_some (p : CString) (buf : List Byte) (w : World) (f : File)
    (h : w.files (w.node p) = some f) :
    fwrite p buf w
      = { w with
          files := update w.files (w.node p) (some { f with content := f.content ++ buf.take (w.fsize_limit - f.content.length) })
          trace := w.trace ++ [Call.fwrite p buf] } := by
  simp [fwrite, h]

theorem copy_loop_succ (fuel : Nat) (src : CString) (pos : Nat) (dst : CString) (w : World) :
    copy_loop (fuel + 1) src pos dst w
      = if (fread src pos 4096 w).1.length > 0 then
          copy_loop fuel src (pos + (fread src pos 4096 w).1.length) dst
            (fwrite dst (fread src pos 4096 w).1 (fread src pos 4096 w).2)
        else some (fread src pos 4096 w).2 := by
  rw [copy_loop]

/-- The loop of `copy_file` on two distinct files, with enough fuel: it ends,
and the output has gained the rest of the input as far as the size limit
allows. -/
theorem copy_loop_distinct (src dst : CString) (fs : File) :
    ∀ (fuel pos : Nat) (w : World) (fd : File),
      w.node src ≠ w.node dst →
      w.files (w.node src) = some fs → w.files (w.node dst) = some fd →
      fs.content.length - pos < fuel →
      ∃ t, copy_loop fuel src pos dst w
          = some { w with
              files := update w.files (w.node dst) (some { fd with content := fd.content ++ (fs.content.drop pos).take (w.fsize_limit - fd.content.length) })
              trace := w.trace ++ t }
        ∧ ∀ c ∈ t, c = Call.fread src 4096 ∨ ∃ b, c = Call.fwrite dst b := by
  intro fuel
  induction fuel with
  | zero => intro pos w fd _ _ _ h; omega
  | succ fuel ih =>
    intro pos w fd hne hs hd hfuel
    rw [copy_loop_succ, fread_some src pos 4096 w fs hs]
    dsimp only
    by_cases hn : ((fs.content.drop pos).take 4096).length > 0
    · rw [if_pos hn, fwrite_some dst _ _ fd (by exact hd)]
      dsimp only
      have hlen : fs.content.length - (pos + ((fs.content.drop pos).take 4096).length) < fuel := by
        simp only [List.length_take, List.length_drop] at hn ⊢
        omega
      obtain ⟨t, ht, htc⟩ := ih (pos + ((fs.content.drop pos).take 4096).length)
        { w with
          files := update w.files (w.node dst) (some { fd with content := fd.content ++ ((fs.content.drop pos).take 4096).take (w.fsize_limit - fd.content.length) })
          trace := w.trace ++ [Call.fread src 4096] ++ [Call.fwrite dst ((fs.content.drop pos).take 4096)] }
        { fd with content := fd.content ++ ((fs.content.drop pos).take 4096).take (w.fsize_limit - fd.content.length) }
        hne (by simpa [update, hne] using hs) (by simp [update]) hlen
      refine ⟨Call.fread src 4096 :: Call.fwrite dst ((fs.content.drop pos).take 4096) :: t, ?_, ?_⟩
      · rw [ht]
        have hc := take_chunk_append (fs.content.drop pos) (w.fsize_limit - fd.content.length) 4096
        simp only [update_update, List.append_assoc, List.length_append,
          List.singleton_append, List.cons_append, List.nil_append]
        have hd2 : List.drop (pos + ((fs.content.drop pos).take 4096).length) fs.content
            = List.drop ((fs.content.drop pos).take 4096).length (fs.content.drop pos) := by
          rw [List.drop_drop, Nat.add_comm]
        have hsub : w.fsize_limit - (fd.content.length + (List.take (w.fsize_limit - fd.content.length) (List.take 4096 (List.drop pos fs.content))).length)
            = w.fsize_limit - fd.content.length - (List.take (w.fsize_limit - fd.content.length) (List.take 4096 (List.drop pos fs.content))).length := by
          omega
        rw [hd2, hsub, hc]
      · intro c hc
        simp only [List.mem_cons] at hc
        rcases hc with h | h | h
        · exact Or.inl h
        · exact Or.inr ⟨_, h⟩
        · exact htc c h
    · rw [if_neg hn]
      refine ⟨[Call.fread src 4096], ?_, ?_⟩
      · have hnil : (fs.content.drop pos).take 4096 = [] := by
          cases h : (fs.content.drop pos).take 4096 with
          | nil => rfl
          | cons a l => rw [h] at hn; simp at hn
        have hdrop : fs.content.drop pos = [] := by
          cases h : fs.content.drop pos with
          | nil => rfl
          | cons a l => rw [h] at hnil; simp at hnil
        rw [hdrop]
        simp only [List.take_nil, List.append_nil]
        rw [update_self w.files (w.node dst) (some fd) hd]
      · intro c hc
        simp only [List.mem_singleton] at hc
        exact Or.inl hc

/-- The loop of `copy_file` when the first read gives nothing. -/
theorem copy_loop_empty (src dst : CString) (fuel : Nat) (w : World)
    (h : (fread src 0 4096 w).1 = []) :
    copy_loop (fuel + 1) src 0 dst w
      = some { w with trace := w.trace ++ [Call.fread src 4096] } := by
  rw [copy_loop_succ, h]
  simp [fread]
  cases w.files (w.node src) <;> rfl

theorem opened_file_content (dst : CString) (w : World) : (opened_file dst w).content = [] := by
  unfold opened_file
  cases w.files (w.node dst) <;> rfl

theorem opened_file_eta (dst : CString) (w : World) :
    ({ opened_file dst w with content := [] } : File) = opened_file dst w := by
  unfold opened_file
  cases w.files (w.node dst) <;> rfl

theorem fopen_wb_ok (p : CString) (w : World) (h : output_opens p w = true) :
    fopen_wb p w
      = (true, { w with
          files := update w.files (w.node p) (some (opened_file p w))
          trace := w.trace ++ [Call.fopen (some p) "wb".toList]
          succeeded := w.succeeded ++ [Call.fopen (some p) "wb".toList] }) := by
  simp only [output_opens, Bool.and_eq_true, Bool.not_eq_true'] at h
  obtain ⟨⟨h1, h2⟩, h3⟩ := h
  unfold fopen_wb opened_file
  cases hf : w.files (w.node p) <;> simp [h1, h2, h3, hf]

theorem fopen_wb_fails (p : CString) (w : World) (h : output_opens p w = false) :
    fopen_wb p w = (false, { w with trace := w.trace ++ [Call.fopen (some p) "wb".toList] }) := by
  unfold fopen_wb
  have : (w.refuse Op.openW p w.files || w.dirs (w.node p)
      || !(reachable p w)) = true := by
    unfold output_opens at h
    cases h1 : w.refuse Op.openW p w.files <;> cases h2 : w.dirs (w.node p) <;>
      cases h3 : reachable p w <;> simp_all
  simp [this]

theorem fopen_rb_ok (p : CString) (w : World) (h : input_opens (some p) w = true) :
    fopen_rb (some p) w
      = (some p, { w with
          trace := w.trace ++ [Call.fopen (some p) "rb".toList]
          succeeded := w.succeeded ++ [Call.fopen (some p) "rb".toList] }) := by
  simp only [input_opens, Bool.and_eq_true, Bool.not_eq_true'] at h
  obtain ⟨⟨h1, h2⟩, h3⟩ := h
  unfold fopen_rb
  simp [h1, h2, h3]

theorem fopen_rb_fails (src : Option CString) (w : World) (h : input_opens src w = false) :
    fopen_rb src w = (none, { w with trace := w.trace ++ [Call.fopen src "rb".toList] }) := by
  cases src with
  | none => rfl
  | some p =>
    unfold fopen_rb
    cases hr : w.refuse Op.openR p w.files
    · have h2 : (reachable p w && ((w.files (w.node p)).isSome || w.dirs (w.node p)))
          = false := by
        simpa [input_opens, hr] using h
      simp [hr, h2]
    · simp [hr]

theorem copy_files_fails (src : Option CString) (dst : CString) (w : World)
    (h : input_opens src w = false) : copy_files src dst w = w.files := by
  cases src with
  | none => rfl
  | some p => simp [copy_files, h]

theorem copy_files_refused (src : Option CString) (dst : CString) (w : World)
    (h : output_opens dst w = false) : copy_files src dst w = w.files := by
  cases src with
  | none => rfl
  | some p => simp [copy_files, h]

/-- The function `copy_file` always returns; it leaves the files of
`copy_files`, changes nothing else but the logs, and makes only stream
calls. -/
theorem copy_file_eq (src : Option CString) (dst : CString) (w : World) :
    ∃ t, copy_file src dst w
        = some { w with
            files := copy_files src dst w
            trace := w.trace ++ Call.fopen src "rb".toList :: t
            succeeded := w.succeeded ++ copy_succeeded src dst w }
      ∧ (∀ c ∈ t, Call.inCopy src dst c = true)
      ∧ (input_opens src w = true → t.head? = some (Call.fopen (some dst) "wb".toList)) := by
  cases hin : input_opens src w
  · refine ⟨[], ?_, ?_, ?_⟩
    · unfold copy_file
      rw [fopen_rb_fails src w hin, copy_files_fails src dst w hin]
      simp [copy_succeeded, hin]
    · intro c hc; simp at hc
    · intro h; simp at h
  · cases src with
    | none => simp [input_opens] at hin
    | some s =>
      unfold copy_file
      rw [fopen_rb_ok s w hin]
      dsimp only
      cases hout : output_opens dst w
      · rw [fopen_wb_fails dst _ (by exact hout)]
        refine ⟨[Call.fopen (some dst) "wb".toList, Call.fclose s], ?_, ?_, ?_⟩
        · simp [copy_files, copy_succeeded, hin, hout, fclose]
        · intro c hc
          simp only [List.mem_cons, List.mem_singleton, List.not_mem_nil, or_false] at hc
          rcases hc with h | h <;> subst h <;> simp [Call.inCopy]
        · intro _; rfl
      · rw [fopen_wb_ok dst _ (by exact hout)]
        dsimp only
        have ho : opened_file dst
            { w with
              trace := w.trace ++ [Call.fopen (some s) "rb".toList]
              succeeded := w.succeeded ++ [Call.fopen (some s) "rb".toList] }
            = opened_file dst w := rfl
        rw [ho]
        have hcases : (w.node s = w.node dst ∨ w.files (w.node s) = none)
            ∨ (w.node s ≠ w.node dst ∧ ∃ fs, w.files (w.node s) = some fs) := by
          by_cases hsd : w.node s = w.node dst
          · exact Or.inl (Or.inl hsd)
          · cases hf : w.files (w.node s) with
            | none => exact Or.inl (Or.inr rfl)
            | some fs => exact Or.inr ⟨hsd, fs, rfl⟩
        rcases hcases with hempty | ⟨hsd, fs, hfs⟩
        · have hdata : copy_data s dst w = [] := by
            unfold copy_data
            rcases hempty with h | h
            · simp [h]
            · simp [h]
          have hread : (fread s 0 4096
              { w with
                files := update w.files (w.node dst) (some (opened_file dst w))
                trace := w.trace ++ [Call.fopen (some s) "rb".toList]
                  ++ [Call.fopen (some dst) "wb".toList]
                succeeded := w.succeeded ++ [Call.fopen (some s) "rb".toList]
                  ++ [Call.fopen (some dst) "wb".toList] }).1 = [] := by
            unfold fread
            dsimp only
            rcases hempty with h | h
            · rw [h, update_same]
              simp [opened_file_content]
            · by_cases hsd : w.node s = w.node dst
              · rw [hsd, update_same]
                simp [opened_file_content]
              · rw [update_ne _ _ _ _ hsd, h]
          refine ⟨[Call.fopen (some dst) "wb".toList, Call.fread s 4096, Call.fclose s,
            Call.fclose dst], ?_, ?_, ?_⟩
          · rw [copy_loop_empty s dst _ _ hread]
            simp [copy_files, copy_succeeded, hin, hout, fclose, hdata, opened_file_eta]
          · intro c hc
            simp only [List.mem_cons, List.mem_singleton, List.not_mem_nil, or_false] at hc
            rcases hc with h | h | h | h <;> subst h <;> simp [Call.inCopy]
          · intro _; rfl
        · obtain ⟨t, ht, htc⟩ := copy_loop_distinct s dst fs (fs.content.length + 1) 0
            { w with
              files := update w.files (w.node dst) (some (opened_file dst w))
              trace := w.trace ++ [Call.fopen (some s) "rb".toList]
                ++ [Call.fopen (some dst) "wb".toList]
              succeeded := w.succeeded ++ [Call.fopen (some s) "rb".toList]
                ++ [Call.fopen (some dst) "wb".toList] }
            (opened_file dst w) hsd
            (by simpa [update, hsd] using hfs) (by simp [update]) (by omega)
          have hsize : fsize s
              { w with
                files := update w.files (w.node dst) (some (opened_file dst w))
                trace := w.trace ++ [Call.fopen (some s) "rb".toList]
                  ++ [Call.fopen (some dst) "wb".toList]
                succeeded := w.succeeded ++ [Call.fopen (some s) "rb".toList]
                  ++ [Call.fopen (some dst) "wb".toList] }
              = fs.content.length := by
            simp [fsize, update, hsd, hfs]
          refine ⟨Call.fopen (some dst) "wb".toList :: (t ++ [Call.fclose s, Call.fclose dst]),
            ?_, ?_, ?_⟩
          · rw [hsize, ht]
            simp [copy_files, copy_succeeded, copy_data, hin, hout, hfs, fclose, update_update,
              opened_file_content, hsd]
          · intro c hc
            simp only [List.mem_cons, List.mem_append, List.mem_singleton, List.not_mem_nil,
              or_false] at hc
            rcases hc with h | h | h | h
            · subst h; simp [Call.inCopy]
            · rcases htc c h with h1 | ⟨b, h1⟩ <;> subst h1 <;> simp [Call.inCopy]
            · subst h; simp [Call.inCopy]
            · subst h; simp [Call.inCopy]
          · intro _; rfl

theorem chown_eq (p : CString) (u g : Nat) (w : World) :
    chown p u g w
      = (chown_ok p w,
          { w with
            files := chown_files p u g w
            trace := w.trace ++ [Call.chown p u g]
            succeeded := w.succeeded ++ (if chown_ok p w then [Call.chown p u g] else []) }) := by
  unfold chown chown_files chown_ok
  cases hr : w.refuse Op.chown p w.files
  · cases hp : reachable p w
    · simp [hr, hp]
    · cases hf : w.files (w.node p)
      · cases hd : w.dirs (w.node p) <;> simp [hr, hp, hf, hd]
      · simp [hr, hp, hf]
  · simp [hr]

theorem chmod_eq (p : CString) (m : Nat) (w : World) :
    chmod p m w
      = (chmod_ok p w,
          { w with
            files := chmod_files p m w
            trace := w.trace ++ [Call.chmod p m]
            succeeded := w.succeeded ++ (if chmod_ok p w then [Call.chmod p m] else []) }) := by
  unfold chmod chmod_files chmod_ok
  cases hr : w.refuse Op.chmod p w.files
  · cases hp : reachable p w
    · simp [hr, hp]
    · cases hf : w.files (w.node p)
      · cases hd : w.dirs (w.node p) <;> simp [hr, hp, hf, hd]
      · simp [hr, hp, hf]
  · simp [hr]

theorem mkdir_eq (p : CString) (m : Nat) (w : World) :
    mkdir p m w
      = (mkdir_ok p w,
          { w with
            dirs := mkdir_dirs p w
            trace := w.trace ++ [Call.mkdir p m]
            succeeded := w.succeeded ++ (if mkdir_ok p w then [Call.mkdir p m] else []) }) := by
  unfold mkdir mkdir_dirs mkdir_ok
  cases hr : (w.refuse Op.mkdir p w.files || w.dirs (w.node p)
    || (w.files (w.node p)).isSome || !(reachable p w)) <;> simp [hr]

/-- Job-processing mode of `main` in closed form: with 6 or 7 arguments and a
known user, `main` returns `CUPS_BACKEND_OK` and leaves exactly this world. -/
theorem main_job (argv : List CString) (w : World) (pw : passwd)
    (hargc : argv.length = 6 ∨ argv.length = 7)
    (hu : w.users (argv.getD 2 []) = some pw) :
    ∃ t, main argv w
        = some (CUPS_BACKEND_OK,
            { w with
              dirs := mkdir_dirs (output_dir pw.pw_dir) w
              files := job_files (argv.get? 6) (output_path (output_dir pw.pw_dir) (argv.getD 3 []))
                pw.pw_uid pw.pw_gid (with_dirs (mkdir_dirs (output_dir pw.pw_dir) w) w)
              trace := w.trace ++ Call.getpwnam (argv.getD 2 []) ::
                Call.mkdir (output_dir pw.pw_dir) 0o755 ::
                Call.fopen (argv.get? 6) "rb".toList ::
                (t ++ [Call.chown (output_path (output_dir pw.pw_dir) (argv.getD 3 [])) pw.pw_uid pw.pw_gid,
                       Call.chmod (output_path (output_dir pw.pw_dir) (argv.getD 3 [])) 0o644])
              succeeded := w.succeeded
                ++ ((if mkdir_ok (output_dir pw.pw_dir) w then [Call.mkdir (output_dir pw.pw_dir) 0o755] else [])
                ++ job_succeeded (argv.get? 6) (output_path (output_dir pw.pw_dir) (argv.getD 3 []))
                    pw.pw_uid pw.pw_gid (with_dirs (mkdir_dirs (output_dir pw.pw_dir) w) w)) })
      ∧ (∀ c ∈ t, Call.inCopy (argv.get? 6)
          (output_path (output_dir pw.pw_dir) (argv.getD 3 [])) c = true)
      ∧ (input_opens (argv.get? 6) (with_dirs (mkdir_dirs (output_dir pw.pw_dir) w) w) = true →
          t.head? = some (Call.fopen (some (output_path (output_dir pw.pw_dir) (argv.getD 3 []))) "wb".toList)) := by
  have h1 : ¬ argv.length = 1 := by omega
  have h2 : ¬ (argv.length < 6 ∨ argv.length > 7) := by omega
  obtain ⟨t, ht, htc, hth⟩ := copy_file_eq (argv.get? 6)
    (output_path (output_dir pw.pw_dir) (argv.getD 3 []))
    { w with
      dirs := mkdir_dirs (output_dir pw.pw_dir) w
      trace := w.trace ++ [Call.getpwnam (argv.getD 2 [])] ++ [Call.mkdir (output_dir pw.pw_dir) 0o755]
      succeeded := w.succeeded ++ (if mkdir_ok (output_dir pw.pw_dir) w then [Call.mkdir (output_dir pw.pw_dir) 0o755] else []) }
  have hmain : main argv w
      = (copy_file (argv.get? 6) (output_path (output_dir pw.pw_dir) (argv.getD 3 []))
          { w with
            dirs := mkdir_dirs (output_dir pw.pw_dir) w
            trace := w.trace ++ [Call.getpwnam (argv.getD 2 [])] ++ [Call.mkdir (output_dir pw.pw_dir) 0o755]
            succeeded := w.succeeded ++ (if mkdir_ok (output_dir pw.pw_dir) w then [Call.mkdir (output_dir pw.pw_dir) 0o755] else []) }).map
        (fun w3 => (CUPS_BACKEND_OK,
          (chmod (output_path (output_dir pw.pw_dir) (argv.getD 3 [])) 0o644
            (chown (output_path (output_dir pw.pw_dir) (argv.getD 3 [])) pw.pw_uid pw.pw_gid w3).2).2)) := by
    unfold main
    simp only [h1, h2, if_false, getpwnam, hu]
    rw [mkdir_eq]
    rfl
  refine ⟨t, ?_, htc, hth⟩
  rw [hmain, ht]
  simp only [Option.map_some', chown_eq, chmod_eq]
  refine congrArg (fun x => some (CUPS_BACKEND_OK, x)) ?_
  apply World.ext
  case trace =>
    simp only [List.append_assoc, List.singleton_append, List.cons_append, List.nil_append]
  case succeeded =>
    simp only [job_succeeded, List.append_assoc]
    rfl
  all_goals rfl

/-! ## Lemmas on the closed forms -/

theorem mkdir_dirs_mono (p : CString) (w : World) (q : CString) (h : w.dirs q = true) :
    mkdir_dirs p w q = true := by
  unfold mkdir_dirs
  by_cases hq : q = w.node p
  · cases mkdir_ok p w
    · simpa using h
    · simp [update, hq]
  · cases mkdir_ok p w <;> simp [update, hq, h]

theorem reachable_mkdir (q p : CString) (w : World) (h : reachable q w = true) :
    reachable q (with_dirs (mkdir_dirs p w) w) = true := by
  simp only [reachable, with_dirs, List.all_eq_true] at h ⊢
  intro d hd
  exact mkdir_dirs_mono p w d (h d hd)

theorem input_opens_mkdir (src : Option CString) (p : CString) (w : World)
    (h : input_opens src w = true) : input_opens src (with_dirs (mkdir_dirs p w) w) = true := by
  cases src with
  | none => simp [input_opens] at h
  | some s =>
    simp only [input_opens, Bool.and_eq_true, Bool.not_eq_true', Bool.or_eq_true] at h
    obtain ⟨⟨h1, hr⟩, h2⟩ := h
    simp only [input_opens, Bool.and_eq_true, Bool.not_eq_true', Bool.or_eq_true]
    refine ⟨⟨h1, reachable_mkdir s p w hr⟩, ?_⟩
    rcases h2 with h2 | h2
    · exact Or.inl h2
    · exact Or.inr (mkdir_dirs_mono p w _ h2)

theorem chown_files_content (p : CString) (u g : Nat) (w : World) (q : CString) :
    (chown_files p u g w q).map File.content = (w.files q).map File.content := by
  unfold chown_files
  cases chown_ok p w
  · rfl
  · cases hf : w.files (w.node p)
    · simp
    · by_cases hq : q = w.node p
      · subst hq; simp [update, hf]
      · simp [update, hq]

theorem chmod_files_content (p : CString) (m : Nat) (w : World) (q : CString) :
    (chmod_files p m w q).map File.content = (w.files q).map File.content := by
  unfold chmod_files
  cases chmod_ok p w
  · rfl
  · cases hf : w.files (w.node p)
    · simp
    · by_cases hq : q = w.node p
      · subst hq; simp [update, hf]
      · simp [update, hq]

theorem chown_files_ne (p : CString) (u g : Nat) (w : World) (q : CString)
    (hq : q ≠ w.node p) : chown_files p u g w q = w.files q := by
  unfold chown_files
  cases chown_ok p w
  · rfl
  · cases hf : w.files (w.node p) <;> simp [update, hq]

theorem chmod_files_ne (p : CString) (m : Nat) (w : World) (q : CString)
    (hq : q ≠ w.node p) : chmod_files p m w q = w.files q := by
  unfold chmod_files
  cases chmod_ok p w
  · rfl
  · cases hf : w.files (w.node p) <;> simp [update, hq]

theorem copy_files_ne (src : Option CString) (dst : CString) (w : World) (q : CString)
    (hq : q ≠ w.node dst) : copy_files src dst w q = w.files q := by
  unfold copy_files
  cases src with
  | none => rfl
  | some s =>
    by_cases h : (input_opens (some s) w = true ∧ output_opens dst w = true)
    · simp [h, update, hq]
    · simp [h]

theorem job_files_ne (src : Option CString) (dst : CString) (u g : Nat) (w : World)
    (q : CString) (hq : q ≠ w.node dst) : job_files src dst u g w q = w.files q := by
  unfold job_files
  rw [chmod_files_ne _ _ _ _ (by exact hq)]
  show chown_files dst u g (after_copy src dst w) q = _
  rw [chown_files_ne _ _ _ _ _ (by exact hq)]
  exact copy_files_ne _ _ _ _ hq

theorem job_files_content (src : Option CString) (dst : CString) (u g : Nat) (w : World)
    (q : CString) :
    (job_files src dst u g w q).map File.content = (copy_files src dst w q).map File.content := by
  unfold job_files
  rw [chmod_files_content]
  show (chown_files dst u g (after_copy src dst w) q).map File.content = _
  rw [chown_files_content]
  rfl

theorem copy_files_opened (s dst : CString) (w : World)
    (hin : input_opens (some s) w = true) (hout : output_opens dst w = true) :
    (copy_files (some s) dst w (w.node dst)).map File.content
      = some (copy_data s dst w) := by
  simp [copy_files, hin, hout, update]

/-- The successful calls of the job-processing part of `main`, one flag for
each call that can succeed. -/
theorem mem_job_succeeded (src : Option CString) (dir dst : CString) (u g : Nat) (w : World)
    (m : Bool) :
    (Call.mkdir dir 0o755
        ∈ (if m then [Call.mkdir dir 0o755] else []) ++ job_succeeded src dst u g w ↔ m = true)
      ∧ (Call.fopen src "rb".toList
        ∈ (if m then [Call.mkdir dir 0o755] else []) ++ job_succeeded src dst u g w ↔
          input_opens src w = true)
      ∧ (Call.fopen (some dst) "wb".toList
        ∈ (if m then [Call.mkdir dir 0o755] else []) ++ job_succeeded src dst u g w ↔
          (input_opens src w = true ∧ output_opens dst w = true))
      ∧ (Call.chown dst u g
        ∈ (if m then [Call.mkdir dir 0o755] else []) ++ job_succeeded src dst u g w ↔
          chown_ok dst (after_copy src dst w) = true)
      ∧ (Call.chmod dst 0o644
        ∈ (if m then [Call.mkdir dir 0o755] else []) ++ job_succeeded src dst u g w ↔
          chmod_ok dst (after_chown src dst u g w) = true) := by
  have hmode : "rb".toList ≠ "wb".toList := by decide
  have hmode' : "wb".toList ≠ "rb".toList := by decide
  unfold job_succeeded copy_succeeded
  cases m <;> cases input_opens src w <;> cases output_opens dst w <;>
    cases chown_ok dst (after_copy src dst w) <;>
    cases chmod_ok dst (after_chown src dst u g w) <;>
    simp [hmode, hmode']

theorem since_append (w w' : World) (l : List Call) (h : w'.succeeded = w.succeeded ++ l) :
    since w w' = l := by
  unfold since
  rw [h, List.drop_left]

/-! ## Argument count, device listing, unknown user -/

/-- Claim C1. With an argument count other than 1, 6 or 7, `main` returns
`CUPS_BACKEND_FAILED`; its only library call is one `fputs` of a non-empty
diagnostic to standard error, so standard output, the files and the
directories are unchanged and no user is looked up. -/
theorem main_wrong_argument_count (argv : List CString) (w : World)
    (h1 : argv.length ≠ 1) (h6 : argv.length ≠ 6) (h7 : argv.length ≠ 7) :
    ∃ w' msg, main argv w = some (CUPS_BACKEND_FAILED, w')
      ∧ msg ≠ []
      ∧ w'.stderr = w.stderr ++ msg
      ∧ w'.stdout = w.stdout
      ∧ w'.files = w.files
      ∧ w'.dirs = w.dirs
      ∧ w'.stdin = w.stdin
      ∧ w'.trace = w.trace ++ [Call.fputs msg] := by
  have h2 : argv.length < 6 ∨ argv.length > 7 := by omega
  refine ⟨fputs_stderr "ERROR: Wrong number of arguments\n".toList w,
    "ERROR: Wrong number of arguments\n".toList, ?_, by decide, rfl, rfl, rfl, rfl, rfl, rfl⟩
  unfold main
  simp only [h1, h2, if_false, if_true]

/-- Three arguments in `alice_world`: the hypotheses of `main_wrong_argument_count` hold. -/
theorem main_wrong_argument_count_witness :
    ∃ w' msg, main ["cups-pdf".toList, "42".toList, "alice".toList] alice_world
        = some (CUPS_BACKEND_FAILED, w')
      ∧ msg ≠ []
      ∧ w'.stderr = alice_world.stderr ++ msg
      ∧ w'.stdout = alice_world.stdout
      ∧ w'.files = alice_world.files
      ∧ w'.dirs = alice_world.dirs
      ∧ w'.stdin = alice_world.stdin
      ∧ w'.trace = alice_world.trace ++ [Call.fputs msg] :=
  main_wrong_argument_count ["cups-pdf".toList, "42".toList, "alice".toList] alice_world
    (by decide) (by decide) (by decide)

/-- Claim C8. With no program argument (`argc = 1`), `main` returns
`CUPS_BACKEND_OK`; its only library call is one `puts` of the device line,
which holds no newline and is made of the fixed tokens, so exactly that line
and a newline are added to standard output, nothing goes to standard error,
and users, files and directories are not touched. -/
theorem main_device_listing (argv : List CString) (w : World) (h : argv.length = 1) :
    ∃ w', main argv w = some (CUPS_BACKEND_OK, w')
      ∧ w'.stdout = w.stdout ++ device_line ++ ['\n']
      ∧ '\n' ∉ device_line
      ∧ device_line = "file".toList ++ [' '] ++ "cups-pdf:/".toList ++ [' ']
          ++ "\"Otto's Print to PDF\"".toList ++ [' '] ++ "\"Otto's Print to PDF\"".toList
          ++ [' '] ++ "\"MFG:Otto;CMD:PDF;\"".toList
      ∧ w'.stderr = w.stderr
      ∧ w'.files = w.files
      ∧ w'.dirs = w.dirs
      ∧ w'.stdin = w.stdin
      ∧ w'.trace = w.trace ++ [Call.puts device_line] := by
  refine ⟨puts device_line w, ?_, rfl, by decide, by decide, rfl, rfl, rfl, rfl, rfl⟩
  unfold main
  simp only [h, if_true]

/-- The program name alone in `alice_world`: the hypothesis of `main_device_listing` holds. -/
theorem main_device_listing_witness :
    ∃ w', main ["cups-pdf".toList] alice_world = some (CUPS_BACKEND_OK, w')
      ∧ w'.stdout = alice_world.stdout ++ device_line ++ ['\n']
      ∧ '\n' ∉ device_line
      ∧ device_line = "file".toList ++ [' '] ++ "cups-pdf:/".toList ++ [' ']
          ++ "\"Otto's Print to PDF\"".toList ++ [' '] ++ "\"Otto's Print to PDF\"".toList
          ++ [' '] ++ "\"MFG:Otto;CMD:PDF;\"".toList
      ∧ w'.stderr = alice_world.stderr
      ∧ w'.files = alice_world.files
      ∧ w'.dirs = alice_world.dirs
      ∧ w'.stdin = alice_world.stdin
      ∧ w'.trace = alice_world.trace ++ [Call.puts device_line] :=
  main_device_listing ["cups-pdf".toList] alice_world (by decide)

/-- Claim C5. With 6 or 7 arguments and a user name that `getpwnam` does not
know, `main` returns `CUPS_BACKEND_FAILED`; its only library calls are the
`getpwnam` and one `fputs` of a non-empty diagnostic to standard error, so
no directory is created, no file is opened, created or truncated, no owner
or mode is changed: files and directories are unchanged. -/
theorem main_unknown_user (argv : List CString) (w : World)
    (hargc : argv.length = 6 ∨ argv.length = 7)
    (hu : w.users (argv.getD 2 []) = none) :
    ∃ w' msg, main argv w = some (CUPS_BACKEND_FAILED, w')
      ∧ msg ≠ []
      ∧ w'.stderr = w.stderr ++ msg
      ∧ w'.stdout = w.stdout
      ∧ w'.files = w.files
      ∧ w'.dirs = w.dirs
      ∧ w'.stdin = w.stdin
      ∧ w'.trace = w.trace ++ [Call.getpwnam (argv.getD 2 []), Call.fputs msg] := by
  have h1 : ¬ argv.length = 1 := by omega
  have h2 : ¬ (argv.length < 6 ∨ argv.length > 7) := by omega
  refine ⟨fputs_stderr "ERROR: Unable to get user info\n".toList (getpwnam (argv.getD 2 []) w).2,
    "ERROR: Unable to get user info\n".toList, ?_, by decide, rfl, rfl, rfl, rfl, rfl, ?_⟩
  · unfold main
    simp only [h1, h2, if_false, getpwnam, hu]
  · simp [fputs_stderr, getpwnam]

/-- The unknown user `bob` in `alice_world`: the hypotheses of `main_unknown_user` hold. -/
theorem main_unknown_user_witness :
    ∃ w' msg, main (argv_stdin.set 2 "bob".toList) alice_world = some (CUPS_BACKEND_FAILED, w')
      ∧ msg ≠ []
      ∧ w'.stderr = alice_world.stderr ++ msg
      ∧ w'.stdout = alice_world.stdout
      ∧ w'.files = alice_world.files
      ∧ w'.dirs = alice_world.dirs
      ∧ w'.stdin = alice_world.stdin
      ∧ w'.trace = alice_world.trace
          ++ [Call.getpwnam ((argv_stdin.set 2 "bob".toList).getD 2 []), Call.fputs msg] :=
  main_unknown_user (argv_stdin.set 2 "bob".toList) alice_world (by decide) (by decide)

/-! ## Six arguments -/

/-- Claim C3 fails on the code: in the six-argument invocation of the
example scenario, with four bytes waiting on standard input, `main` passes
`argv[6]`, the NULL pointer, to `fopen`; the open fails, nothing is read
from standard input, no destination file is created, and `main` still
returns `CUPS_BACKEND_OK`. -/
theorem main_six_arguments_ignores_stdin :
    argv_stdin.length = 6
      ∧ alice_world.stdin = [37, 80, 68, 70]
      ∧ (main argv_stdin alice_world).map
          (fun r => (r.1, r.2.files invoice_path, r.2.stdin, r.2.trace))
        = some (CUPS_BACKEND_OK, none, [37, 80, 68, 70],
            [Call.getpwnam "alice".toList,
             Call.mkdir "/Users/alice/Documents".toList 0o755,
             Call.fopen none "rb".toList,
             Call.chown invoice_path 501 20,
             Call.chmod invoice_path 0o644]) := by
  decide

/-! ## Destination path -/

theorem output_dir_fits (home : CString) (h : home.length ≤ 1013) :
    output_dir home = home ++ "/Documents".toList := by
  unfold output_dir snprintf
  apply List.take_of_length_le
  have : "/Documents".toList.length = 10 := by decide
  rw [List.length_append, this]
  omega

theorem output_path_fits (dir title : CString) (h : dir.length + title.length ≤ 2042) :
    output_path dir title = dir ++ "/".toList ++ title ++ ".pdf".toList := by
  unfold output_path snprintf
  apply List.take_of_length_le
  have h1 : "/".toList.length = 1 := by decide
  have h2 : ".pdf".toList.length = 4 := by decide
  simp only [List.length_append, h1, h2]
  omega

theorem output_path_length_le (dir title : CString) : (output_path dir title).length ≤ 2047 := by
  unfold output_path snprintf
  rw [List.length_take]
  omega

/-- Claim C6, amended. In every job-processing invocation (6 or 7 arguments,
known user) the directory that `main` creates is the text
`home ++ "/Documents"` cut to 1023 characters, and the path that `main`
opens for writing, chowns and chmods is that directory text followed by
`"/"`, the title verbatim and `".pdf"`, cut to 2047 characters. When `home`
has at most 1013 characters and `home` and the title together at most 2032,
nothing is cut: the directory is `home ++ "/Documents"` and the path is
`home ++ "/Documents/" ++ title ++ ".pdf"`. -/
theorem main_destination_path (argv : List CString) (w : World) (pw : passwd)
    (hargc : argv.length = 6 ∨ argv.length = 7)
    (hu : w.users (argv.getD 2 []) = some pw) :
    ∃ w' t, main argv w = some (CUPS_BACKEND_OK, w')
      ∧ w'.trace = w.trace ++ Call.getpwnam (argv.getD 2 []) ::
          Call.mkdir (output_dir pw.pw_dir) 0o755 ::
          Call.fopen (argv.get? 6) "rb".toList ::
          (t ++ [Call.chown (output_path (output_dir pw.pw_dir) (argv.getD 3 [])) pw.pw_uid pw.pw_gid,
                 Call.chmod (output_path (output_dir pw.pw_dir) (argv.getD 3 [])) 0o644])
      ∧ (∀ c ∈ t, Call.inCopy (argv.get? 6)
          (output_path (output_dir pw.pw_dir) (argv.getD 3 [])) c = true)
      ∧ (input_opens (argv.get? 6) w = true →
          Call.fopen (some (output_path (output_dir pw.pw_dir) (argv.getD 3 []))) "wb".toList ∈ t)
      ∧ output_dir pw.pw_dir = (pw.pw_dir ++ "/Documents".toList).take 1023
      ∧ output_path (output_dir pw.pw_dir) (argv.getD 3 [])
          = (output_dir pw.pw_dir ++ "/".toList ++ argv.getD 3 [] ++ ".pdf".toList).take 2047
      ∧ (pw.pw_dir.length ≤ 1013 → pw.pw_dir.length + (argv.getD 3 []).length ≤ 2032 →
          output_dir pw.pw_dir = pw.pw_dir ++ "/Documents".toList
          ∧ output_path (output_dir pw.pw_dir) (argv.getD 3 [])
              = pw.pw_dir ++ "/Documents/".toList ++ argv.getD 3 [] ++ ".pdf".toList) := by
  obtain ⟨t, ht, htc, hth⟩ := main_job argv w pw hargc hu
  refine ⟨_, t, ht, rfl, htc, ?_, rfl, rfl, ?_⟩
  · intro hin
    exact List.mem_of_mem_head? (hth (input_opens_mkdir _ _ _ hin))
  · intro h1 h2
    have hd := output_dir_fits pw.pw_dir h1
    refine ⟨hd, ?_⟩
    rw [hd, output_path_fits]
    · have : "/Documents/".toList = "/Documents".toList ++ "/".toList := by decide
      rw [this]
      simp only [List.append_assoc]
    · have : "/Documents".toList.length = 10 := by decide
      rw [List.length_append, this]
      omega

/-- The example scenario: nothing is cut and the destination is `/Users/alice/Documents/Invoice.pdf`. -/
theorem main_destination_path_witness :
    ∃ w' t, main argv_file alice_world = some (CUPS_BACKEND_OK, w')
      ∧ w'.trace = Call.getpwnam "alice".toList ::
          Call.mkdir "/Users/alice/Documents".toList 0o755 ::
          Call.fopen (some "/tmp/in.pdf".toList) "rb".toList ::
          (t ++ [Call.chown invoice_path 501 20, Call.chmod invoice_path 0o644])
      ∧ Call.fopen (some invoice_path) "wb".toList ∈ t := by
  obtain ⟨w', t, hrun, htr, -, hopen, -, -, hfit⟩ :=
    main_destination_path argv_file alice_world alice (by decide) (by decide)
  obtain ⟨hd, hp⟩ := hfit (by decide) (by decide)
  have hopen' := hopen (by decide)
  rw [hp] at htr hopen'
  rw [hd] at htr
  exact ⟨w', t, hrun, htr, hopen'⟩

/-- Claim C6 as stated fails for a title of 2048 characters: the path that
`main` chowns and chmods has 2047 characters, the concatenation
`home ++ "/Documents/" ++ title ++ ".pdf"` has 2075; `main` calls `chmod` on
the cut path and never on the concatenation. -/
theorem main_long_title_is_cut :
    argv_long.length = 7
      ∧ alice_world.users (argv_long.getD 2 []) = some alice
      ∧ argv_long.getD 3 [] = long_title
      ∧ (output_path (output_dir alice.pw_dir) long_title).length = 2047
      ∧ (alice.pw_dir ++ "/Documents/".toList ++ long_title ++ ".pdf".toList).length = 2075
      ∧ ∃ w', main argv_long alice_world = some (CUPS_BACKEND_OK, w')
          ∧ Call.chmod (output_path (output_dir alice.pw_dir) long_title) 0o644 ∈ w'.trace
          ∧ Call.chmod (alice.pw_dir ++ "/Documents/".toList ++ long_title ++ ".pdf".toList) 0o644
              ∉ w'.trace := by
  have hlen1 : (output_path (output_dir alice.pw_dir) long_title).length = 2047 := by
    have hd : output_dir alice.pw_dir = "/Users/alice/Documents".toList := by decide
    have h1 : "/Users/alice/Documents".toList.length = 22 := by decide
    have h2 : "/".toList.length = 1 := by decide
    have h3 : ".pdf".toList.length = 4 := by decide
    rw [hd]
    unfold output_path snprintf long_title
    simp only [List.length_take, List.length_append, List.length_replicate, h1, h2, h3]
    omega
  have hlen2 : (alice.pw_dir ++ "/Documents/".toList ++ long_title ++ ".pdf".toList).length
      = 2075 := by
    have h1 : (alice.pw_dir ++ "/Documents/".toList).length = 23 := by decide
    have h3 : ".pdf".toList.length = 4 := by decide
    unfold long_title
    simp only [List.length_append, List.length_replicate, h1, h3] at h1 ⊢
  have hu : alice_world.users (argv_long.getD 2 []) = some alice := by decide
  have htitle : argv_long.getD 3 [] = long_title := rfl
  refine ⟨rfl, hu, htitle, hlen1, hlen2, ?_⟩
  obtain ⟨t, ht, htc, -⟩ := main_job argv_long alice_world alice (Or.inr rfl) hu
  rw [htitle] at ht htc
  refine ⟨_, ht, ?_, ?_⟩
  · simp
  · intro hmem
    simp only [List.mem_append, List.mem_cons, List.mem_singleton, List.not_mem_nil,
      or_false] at hmem
    rcases hmem with h | h | h | h | h | h | h
    · simp [alice_world] at h
    · cases h
    · cases h
    · cases h
    · have := htc _ h
      simp [Call.inCopy] at this
    · cases h
    · have hp : alice.pw_dir ++ "/Documents/".toList ++ long_title ++ ".pdf".toList
          = output_path (output_dir alice.pw_dir) long_title := by
        injection h
      rw [hp, hlen1] at hlen2
      omega

/-! ## Copy fidelity -/

/-- Claim C4 as stated fails: with an input file that does not exist, the
open of the input fails, and `main` returns `CUPS_BACKEND_OK`, not
`CUPS_BACKEND_FAILED`, and writes nothing to standard error. -/
theorem main_missing_input_reports_ok :
    argv_missing.length = 7
      ∧ input_opens (argv_missing.get? 6) alice_world = false
      ∧ CUPS_BACKEND_OK ≠ CUPS_BACKEND_FAILED
      ∧ (main argv_missing alice_world).map (fun r => (r.1, r.2.stderr))
          = some (CUPS_BACKEND_OK, []) := by
  decide

/-- Claim C4, amended. In every job-processing invocation with an input-file
argument (7 arguments, known user) `main` returns `CUPS_BACKEND_OK` and
writes nothing to standard error or standard output, also when the copy
fails: when the open of the input or the open of the destination did not
succeed no file content changes, and when the size limit stops the writes
the destination keeps the part of the input that fitted. -/
theorem main_copy_failure_is_silent (argv : List CString) (w : World) (pw : passwd)
    (hargc : argv.length = 7)
    (hu : w.users (argv.getD 2 []) = some pw) :
    ∃ w', main argv w = some (CUPS_BACKEND_OK, w')
      ∧ w'.stderr = w.stderr
      ∧ w'.stdout = w.stdout
      ∧ (Call.fopen (argv.get? 6) "rb".toList ∉ since w w'
            ∨ Call.fopen (some (output_path (output_dir pw.pw_dir) (argv.getD 3 []))) "wb".toList
                ∉ since w w' →
          ∀ q, (w'.files q).map File.content = (w.files q).map File.content)
      ∧ (∀ src fs, argv.get? 6 = some src →
          Call.fopen (some src) "rb".toList ∈ since w w' →
          Call.fopen (some (output_path (output_dir pw.pw_dir) (argv.getD 3 []))) "wb".toList
            ∈ since w w' →
          w.files (w.node src) = some fs →
          w.node src ≠ w.node (output_path (output_dir pw.pw_dir) (argv.getD 3 [])) →
          w.fsize_limit < fs.content.length →
          (w'.files (w.node (output_path (output_dir pw.pw_dir) (argv.getD 3 [])))).map
            File.content = some (fs.content.take w.fsize_limit)) := by
  obtain ⟨t, ht, -, -⟩ := main_job argv w pw (Or.inr hargc) hu
  refine ⟨_, ht, rfl, rfl, ?_, ?_⟩
  · rw [since_append w _ _ rfl]
    intro h q
    show (job_files _ _ _ _ _ q).map File.content = _
    rw [job_files_content]
    have hm := mem_job_succeeded (argv.get? 6) (output_dir pw.pw_dir)
      (output_path (output_dir pw.pw_dir) (argv.getD 3 [])) pw.pw_uid pw.pw_gid
      (with_dirs (mkdir_dirs (output_dir pw.pw_dir) w) w) (mkdir_ok (output_dir pw.pw_dir) w)
    cases hin : input_opens (argv.get? 6) (with_dirs (mkdir_dirs (output_dir pw.pw_dir) w) w)
    · rw [copy_files_fails _ _ _ hin]
      rfl
    · cases hout : output_opens (output_path (output_dir pw.pw_dir) (argv.getD 3 []))
          (with_dirs (mkdir_dirs (output_dir pw.pw_dir) w) w)
      · rw [copy_files_refused _ _ _ hout]
        rfl
      · rcases h with h | h
        · exact absurd (hm.2.1.mpr hin) h
        · exact absurd (hm.2.2.1.mpr ⟨hin, hout⟩) h
  · rw [since_append w _ _ rfl]
    intro src fs hsrc _ hwb hfs hne _
    obtain ⟨hin, hout⟩ := (mem_job_succeeded _ _ _ _ _ _ _).2.2.1.mp hwb
    show (job_files _ _ _ _ _ _).map File.content = _
    rw [hsrc] at hin ⊢
    rw [job_files_content]
    have hd : copy_data src (output_path (output_dir pw.pw_dir) (argv.getD 3 []))
        (with_dirs (mkdir_dirs (output_dir pw.pw_dir) w) w) = fs.content.take w.fsize_limit := by
      unfold copy_data
      show (if w.node src = w.node _ then [] else
        match w.files (w.node src) with
        | none => []
        | some fs => fs.content.take w.fsize_limit) = _
      rw [if_neg hne, hfs]
    rw [← hd]
    exact copy_files_opened src _ _ hin hout

/-- A destination that cannot be opened, and a size limit of two bytes for an
input of four: both times `main` returns `CUPS_BACKEND_OK` without a
diagnostic. -/
theorem main_copy_failure_is_silent_witness :
    (∃ w', main argv_file readonly_world = some (CUPS_BACKEND_OK, w')
        ∧ w'.stderr = []
        ∧ ∀ q, (w'.files q).map File.content = (readonly_world.files q).map File.content)
      ∧ (∃ w', main argv_file quota_world = some (CUPS_BACKEND_OK, w')
        ∧ w'.stderr = []
        ∧ (w'.files invoice_path).map File.content = some [37, 80]) := by
  constructor
  · obtain ⟨w', hrun, herr, -, hopen, -⟩ :=
      main_copy_failure_is_silent argv_file readonly_world alice (by decide) (by decide)
    have hlog : (main argv_file readonly_world).map (fun r =>
        decide (Call.fopen (some invoice_path) "wb".toList ∈ since readonly_world r.2))
        = some false := by decide
    rw [hrun] at hlog
    simp only [Option.map_some', Option.some.injEq, decide_eq_false_iff_not] at hlog
    exact ⟨w', hrun, herr, hopen (Or.inr hlog)⟩
  · obtain ⟨w', hrun, herr, -, -, hwrite⟩ :=
      main_copy_failure_is_silent argv_file quota_world alice (by decide) (by decide)
    have hlog : (main argv_file quota_world).map (fun r =>
        (decide (Call.fopen (some "/tmp/in.pdf".toList) "rb".toList ∈ since quota_world r.2),
         decide (Call.fopen (some invoice_path) "wb".toList ∈ since quota_world r.2)))
        = some (true, true) := by decide
    rw [hrun] at hlog
    simp only [Option.map_some', Option.some.injEq, Prod.mk.injEq, decide_eq_true_eq] at hlog
    exact ⟨w', hrun, herr,
      hwrite "/tmp/in.pdf".toList { content := [37, 80, 68, 70], uid := 0, gid := 0, mode := 0o600 }
        (by decide) hlog.1 hlog.2 (by decide) (by decide) (by decide)⟩

theorem job_files_at (src : Option CString) (dst : CString) (u g : Nat) (w : World) :
    job_files src dst u g w (w.node dst)
      = (copy_files src dst w (w.node dst)).map (fun f1 =>
          { f1 with
            uid := if chown_ok dst (after_copy src dst w) then keep_id u f1.uid else f1.uid
            gid := if chown_ok dst (after_copy src dst w) then keep_id g f1.gid else f1.gid
            mode := if chmod_ok dst (after_chown src dst u g w) then 0o644 else f1.mode }) := by
  unfold job_files chmod_files
  have hrp : (after_chown src dst u g w).node = w.node := rfl
  have hfiles : (after_chown src dst u g w).files = chown_files dst u g (after_copy src dst w) :=
    rfl
  rw [hrp, hfiles]
  unfold chown_files
  have hrp2 : (after_copy src dst w).node = w.node := rfl
  have hfiles2 : (after_copy src dst w).files = copy_files src dst w := rfl
  rw [hrp2, hfiles2]
  cases hcopy : copy_files src dst w (w.node dst) with
  | none =>
    cases chmod_ok dst (after_chown src dst u g w) <;>
      cases chown_ok dst (after_copy src dst w) <;> simp [hcopy]
  | some f1 =>
    cases chmod_ok dst (after_chown src dst u g w) <;>
      cases chown_ok dst (after_copy src dst w) <;> simp [hcopy, update]

theorem keep_id_idem (u x : Nat) : keep_id u (keep_id u x) = keep_id u x := by
  unfold keep_id
  by_cases h : u = NO_ID <;> simp [h]

/-- A second job on the files that a first job left leaves them as they are,
when no call succeeds in the second that failed in the first. -/
theorem job_files_fixed (src : Option CString) (dst : CString) (u g : Nat) (W W1 : World)
    (hrp : W1.node = W.node) (hlim : W1.fsize_limit = W.fsize_limit)
    (hfiles : W1.files = job_files src dst u g W)
    (hcopy : input_opens src W1 = true → output_opens dst W1 = true →
      (input_opens src W = true ∧ output_opens dst W = true))
    (hown : chown_ok dst (after_copy src dst W1) = true →
      chown_ok dst (after_copy src dst W) = true)
    (hmod : chmod_ok dst (after_chown src dst u g W1) = true →
      chmod_ok dst (after_chown src dst u g W) = true) :
    job_files src dst u g W1 = W1.files := by
  funext q
  by_cases hq : q = W1.node dst
  swap
  · exact job_files_ne _ _ _ _ _ _ hq
  subst hq
  have hW1 : W1.files (W1.node dst)
      = (copy_files src dst W (W.node dst)).map (fun f1 =>
          { f1 with
            uid := if chown_ok dst (after_copy src dst W) then keep_id u f1.uid else f1.uid
            gid := if chown_ok dst (after_copy src dst W) then keep_id g f1.gid else f1.gid
            mode := if chmod_ok dst (after_chown src dst u g W) then 0o644 else f1.mode }) := by
    rw [hfiles, hrp, job_files_at]
  -- the copy of the second job changes nothing
  have hstepA : copy_files src dst W1 (W1.node dst) = W1.files (W1.node dst) := by
    cases hin2 : input_opens src W1
    · rw [copy_files_fails _ _ _ hin2]
    · cases hout2 : output_opens dst W1
      · rw [copy_files_refused _ _ _ hout2]
      · obtain ⟨hin1, hout1⟩ := hcopy hin2 hout2
        cases src with
        | none => simp [input_opens] at hin2
        | some s =>
          have hc1 : copy_files (some s) dst W (W.node dst)
              = some { opened_file dst W with content := copy_data s dst W } := by
            simp [copy_files, hin1, hout1, update]
          rw [hc1] at hW1
          simp only [Option.map_some'] at hW1
          have hdata : copy_data s dst W1 = copy_data s dst W := by
            unfold copy_data
            rw [hrp, hlim]
            by_cases hsd : W.node s = W.node dst
            · simp [hsd]
            · simp only [hsd, if_false]
              rw [hfiles, job_files_ne _ _ _ _ _ _ hsd]
          simp only [copy_files, hin2, hout2, Bool.and_self, if_true, update_same, hdata]
          rw [hW1]
          simp [opened_file, hW1]
  rw [job_files_at, hstepA]
  cases hf : W1.files (W1.node dst) with
  | none => rfl
  | some f =>
    rw [hf] at hW1
    cases hc : copy_files src dst W (W.node dst) with
    | none => rw [hc] at hW1; simp at hW1
    | some f1 =>
      rw [hc] at hW1
      simp only [Option.map_some', Option.some.injEq] at hW1
      simp only [Option.map_some', Option.some.injEq]
      subst hW1
      cases hc2 : chown_ok dst (after_copy src dst W1) <;>
        cases hm2 : chmod_ok dst (after_chown src dst u g W1)
      · simp
      · simp [hmod hm2]
      · simp [hown hc2, keep_id_idem]
      · simp [hown hc2, hmod hm2, keep_id_idem]

theorem mkdir_dirs_fixed (p : CString) (w w1 : World) (hrp : w1.node = w.node)
    (hd : w1.dirs = mkdir_dirs p w)
    (h : mkdir_ok p w1 = true → mkdir_ok p w = true) : mkdir_dirs p w1 = w1.dirs := by
  unfold mkdir_dirs
  cases h2 : mkdir_ok p w1
  · rfl
  · have h1 := h h2
    have hdir : w1.dirs (w1.node p) = true := by
      rw [hd, hrp]
      simp [mkdir_dirs, h1, update]
    simp [mkdir_ok, hdir] at h2

/-- Claim C9 as stated fails when the backend runs as the user herself and
the destination exists read-only (mode 0400): the first run cannot open it
for writing and leaves its three bytes, but its `chmod` makes the file
writable, so the second run of the same invocation, with the input
unchanged, overwrites it with the four bytes of the input. Both runs return
`CUPS_BACKEND_OK`. -/
theorem main_twice_overwrites :
    argv_file.length = 7
      ∧ owner_world.users (argv_file.getD 2 []) = some alice
      ∧ output_path (output_dir alice.pw_dir) (argv_file.getD 3 []) = invoice_path
      ∧ (main argv_file owner_world).bind (fun r1 =>
          (main argv_file r1.2).map (fun r2 =>
            (r1.1, r2.1,
             (r1.2.files "/tmp/in.pdf".toList).map File.content,
             (r1.2.files invoice_path).map File.content,
             (r2.2.files invoice_path).map File.content)))
        = some (CUPS_BACKEND_OK, CUPS_BACKEND_OK,
            some [37, 80, 68, 70], some [79, 76, 68], some [37, 80, 68, 70]) := by
  refine ⟨by decide, by decide, by decide, ?_⟩
  rfl

/-- Claim C9, amended. Running the same job-processing invocation (6 or 7
arguments, known user) twice in succession: both runs return
`CUPS_BACKEND_OK`, and if no `mkdir`, `fopen`, `chown` or `chmod` succeeds
in the second run that failed in the first, the second run leaves every
file, the destination in particular, with the content, owner, group and mode
the first run left, and the same directories. -/
theorem main_idempotent (argv : List CString) (w : World) (pw : passwd)
    (hargc : argv.length = 6 ∨ argv.length = 7)
    (hu : w.users (argv.getD 2 []) = some pw) :
    ∃ w1 w2, main argv w = some (CUPS_BACKEND_OK, w1)
      ∧ main argv w1 = some (CUPS_BACKEND_OK, w2)
      ∧ ((∀ c ∈ since w1 w2, c ∈ since w w1) →
          w2.files = w1.files ∧ w2.dirs = w1.dirs) := by
  obtain ⟨t, ht, -, -⟩ := main_job argv w pw hargc hu
  obtain ⟨t2, ht2, -, -⟩ := main_job argv _ pw hargc
    (show ({ w with
        dirs := mkdir_dirs (output_dir pw.pw_dir) w
        files := job_files (argv.get? 6) (output_path (output_dir pw.pw_dir) (argv.getD 3 []))
          pw.pw_uid pw.pw_gid (with_dirs (mkdir_dirs (output_dir pw.pw_dir) w) w)
        trace := w.trace ++ Call.getpwnam (argv.getD 2 []) ::
          Call.mkdir (output_dir pw.pw_dir) 0o755 ::
          Call.fopen (argv.get? 6) "rb".toList ::
          (t ++ [Call.chown (output_path (output_dir pw.pw_dir) (argv.getD 3 [])) pw.pw_uid pw.pw_gid,
                 Call.chmod (output_path (output_dir pw.pw_dir) (argv.getD 3 [])) 0o644])
        succeeded := w.succeeded
          ++ ((if mkdir_ok (output_dir pw.pw_dir) w then [Call.mkdir (output_dir pw.pw_dir) 0o755] else [])
          ++ job_succeeded (argv.get? 6) (output_path (output_dir pw.pw_dir) (argv.getD 3 []))
              pw.pw_uid pw.pw_gid (with_dirs (mkdir_dirs (output_dir pw.pw_dir) w) w)) } : World).users
        (argv.getD 2 []) = some pw from hu)
  refine ⟨_, _, ht, ht2, ?_⟩
  rw [since_append _ _ _ rfl, since_append w _ _ rfl]
  intro H
  have hm1 := mem_job_succeeded (argv.get? 6) (output_dir pw.pw_dir)
    (output_path (output_dir pw.pw_dir) (argv.getD 3 [])) pw.pw_uid pw.pw_gid
    (with_dirs (mkdir_dirs (output_dir pw.pw_dir) w) w) (mkdir_ok (output_dir pw.pw_dir) w)
  generalize hw1 : ({ w with
        dirs := mkdir_dirs (output_dir pw.pw_dir) w
        files := job_files (argv.get? 6) (output_path (output_dir pw.pw_dir) (argv.getD 3 []))
          pw.pw_uid pw.pw_gid (with_dirs (mkdir_dirs (output_dir pw.pw_dir) w) w)
        trace := w.trace ++ Call.getpwnam (argv.getD 2 []) ::
          Call.mkdir (output_dir pw.pw_dir) 0o755 ::
          Call.fopen (argv.get? 6) "rb".toList ::
          (t ++ [Call.chown (output_path (output_dir pw.pw_dir) (argv.getD 3 [])) pw.pw_uid pw.pw_gid,
                 Call.chmod (output_path (output_dir pw.pw_dir) (argv.getD 3 [])) 0o644])
        succeeded := w.succeeded
          ++ ((if mkdir_ok (output_dir pw.pw_dir) w then [Call.mkdir (output_dir pw.pw_dir) 0o755] else [])
          ++ job_succeeded (argv.get? 6) (output_path (output_dir pw.pw_dir) (argv.getD 3 []))
              pw.pw_uid pw.pw_gid (with_dirs (mkdir_dirs (output_dir pw.pw_dir) w) w)) } : World)
      = w1 at H ⊢
  have hrp : w1.node = w.node := by rw [← hw1]
  have hlim : w1.fsize_limit = w.fsize_limit := by rw [← hw1]
  have hdirs : w1.dirs = mkdir_dirs (output_dir pw.pw_dir) w := by rw [← hw1]
  have hfiles : w1.files = job_files (argv.get? 6)
      (output_path (output_dir pw.pw_dir) (argv.getD 3 [])) pw.pw_uid pw.pw_gid
      (with_dirs (mkdir_dirs (output_dir pw.pw_dir) w) w) := by rw [← hw1]
  have hm2 := mem_job_succeeded (argv.get? 6) (output_dir pw.pw_dir)
    (output_path (output_dir pw.pw_dir) (argv.getD 3 [])) pw.pw_uid pw.pw_gid
    (with_dirs (mkdir_dirs (output_dir pw.pw_dir) w1) w1) (mkdir_ok (output_dir pw.pw_dir) w1)
  constructor
  · show job_files _ _ _ _ (with_dirs (mkdir_dirs (output_dir pw.pw_dir) w1) w1) = w1.files
    refine job_files_fixed _ _ _ _ (with_dirs (mkdir_dirs (output_dir pw.pw_dir) w) w) _
      hrp hlim hfiles ?_ ?_ ?_
    · intro hin hout
      exact hm1.2.2.1.mp (H _ (hm2.2.2.1.mpr ⟨hin, hout⟩))
    · intro hc
      exact hm1.2.2.2.1.mp (H _ (hm2.2.2.2.1.mpr hc))
    · intro hc
      exact hm1.2.2.2.2.mp (H _ (hm2.2.2.2.2.mpr hc))
  · show mkdir_dirs (output_dir pw.pw_dir) w1 = w1.dirs
    refine mkdir_dirs_fixed _ w w1 hrp hdirs ?_
    intro h2
    exact hm1.1.mp (H _ (hm2.1.mpr h2))

/-- Two runs of the example scenario: the first creates the directory and
the destination, in the second `mkdir` fails because the directory exists
and the other calls succeed as before, and the second run changes no file. -/
theorem main_idempotent_witness :
    ∃ w1 w2, main argv_file alice_world = some (CUPS_BACKEND_OK, w1)
      ∧ main argv_file w1 = some (CUPS_BACKEND_OK, w2)
      ∧ w2.files = w1.files
      ∧ w2.dirs = w1.dirs
      ∧ (w1.files invoice_path).map File.content = some [37, 80, 68, 70] := by
  obtain ⟨w1, w2, h1, h2, h⟩ := main_idempotent argv_file alice_world alice (by decide) (by decide)
  have hlog : (main argv_file alice_world).bind (fun (r1 : Int × World) =>
      (main argv_file r1.2).map (fun (r2 : Int × World) =>
        decide (∀ c ∈ since r1.2 r2.2, c ∈ since alice_world r1.2))) = some true := by
    decide
  have hcontent : (main argv_file alice_world).map (fun (r1 : Int × World) =>
      (r1.2.files invoice_path).map File.content) = some (some [37, 80, 68, 70]) := by
    decide
  rw [h1] at hlog hcontent
  simp only [Option.some_bind, h2, Option.map_some', Option.some.injEq, decide_eq_true_eq] at hlog
  simp only [Option.map_some', Option.some.injEq] at hcontent
  obtain ⟨hf, hd⟩ := h hlog
  exact ⟨w1, w2, h1, h2, hf, hd, hcontent⟩

/-! ## Directory creation -/

end CupsPdf
